import Mathlib

/-!
Verification of the screening engine of `src/main_us.py` (us-stock-scanner).

The embedding models prices and volumes as exact rationals.  Missing values
(pandas `NaN`) are modelled as `none : Option ℚ`; the only place where IEEE
infinities arise in the program is the quotient `rs = ma_up / ma_down`, which
is modelled by the small type `Ext` below.
-/

set_option maxRecDepth 16000

namespace Scanner

/-- IEEE-style extended value for the quotient `rs = ma_up / ma_down`
(src/main_us.py:38).  `nan` models `NaN` (from `0/0` or a `NaN` operand),
`inf` models `+∞` (positive value divided by zero), `negInf` models `-∞`
(negative value divided by zero; unreachable here since both operands are
clipped to be nonnegative). -/
inductive Ext where
  | nan : Ext
  | inf : Ext
  | negInf : Ext
  | fin : ℚ → Ext
deriving DecidableEq, Repr

/-- Float division `a / b` for the series quotient `rs = ma_up / ma_down`:
a `NaN` operand gives `NaN`; division by zero gives `NaN` for `0/0` and a
signed infinity otherwise; otherwise exact rational division. -/
def extDiv (a b : Option ℚ) : Ext :=
  match a, b with
  | some x, some y =>
      if y = 0 then
        if x = 0 then Ext.nan else if 0 < x then Ext.inf else Ext.negInf
      else Ext.fin (x / y)
  | _, _ => Ext.nan

/-- The map `rs ↦ 100 - 100/(1+rs)` of src/main_us.py:39 under float
semantics: `NaN` propagates; `rs = ±∞` gives `100 - 100/±∞ = 100` exactly;
a finite `rs` gives the exact rational value.  (`1 + rs = 0` would give a
signed infinity, not a number; it cannot occur in this program because
`rs ≥ 0`, and is mapped to `none`.) -/
def rsiOf (r : Ext) : Option ℚ :=
  match r with
  | Ext.nan => none
  | Ext.inf => some 100
  | Ext.negInf => some 100
  | Ext.fin q => if 1 + q = 0 then none else some (100 - 100 / (1 + q))

/-- Tail of `series.diff()`: consecutive differences, given the previous
element. -/
def diffGo (prev : ℚ) : List ℚ → List (Option ℚ)
  | [] => []
  | y :: ys => some (y - prev) :: diffGo y ys

/-- Model of `series.diff()` (src/main_us.py:33): the first entry is `NaN`, entry `i`
is `series[i] - series[i-1]`. -/
def diff : List ℚ → List (Option ℚ)
  | [] => []
  | x :: xs => none :: diffGo x xs

/-- Accumulator form of `ewm(alpha, adjust=False).mean()`: while no value has
been seen the output is `NaN`; the first value seeds the average; afterwards
each value `v` updates the average to `alpha*v + (1-alpha)*avg`.  (A missing
value after seeding repeats the current average; this case never occurs in
this program, because `diff` produces `none` only at index 0.) -/
def ewmGo (alpha : ℚ) : Option ℚ → List (Option ℚ) → List (Option ℚ)
  | _, [] => []
  | none, x :: xs =>
      match x with
      | none => none :: ewmGo alpha none xs
      | some v => some v :: ewmGo alpha (some v) xs
  | some p, x :: xs =>
      match x with
      | none => some p :: ewmGo alpha (some p) xs
      | some v => some (alpha * v + (1 - alpha) * p) ::
          ewmGo alpha (some (alpha * v + (1 - alpha) * p)) xs

/-- Model of `series.ewm(alpha=…, adjust=False).mean()` (src/main_us.py:36-37). -/
def ewm (alpha : ℚ) (l : List (Option ℚ)) : List (Option ℚ) :=
  ewmGo alpha none l

/-- Sum of a window; `none` (`NaN`) poisons the sum. -/
def optSum : List (Option ℚ) → Option ℚ
  | [] => some 0
  | x :: xs => x.bind (fun a => (optSum xs).map (fun b => a + b))

/-- Model of `series.rolling(window=length).mean()` (src/main_us.py:29-30,
`calculate_sma`): entry `i` is `NaN` while fewer than `length` entries are
available, and otherwise the mean of the trailing `length` entries, `NaN` if
any of them is `NaN`. -/
def calculate_sma (series : List (Option ℚ)) (length : ℕ) : List (Option ℚ) :=
  (List.range series.length).map (fun i =>
    if i + 1 < length then none
    else (optSum ((series.take (i + 1)).drop (i + 1 - length))).map
      (fun s => s / (length : ℚ)))

/-- Series `up = delta.clip(lower=0)` (src/main_us.py:34). -/
def rsi_up (series : List ℚ) : List (Option ℚ) :=
  (diff series).map (Option.map (fun x => max x 0))

/-- Series `down = -1 * delta.clip(upper=0)` (src/main_us.py:35). -/
def rsi_down (series : List ℚ) : List (Option ℚ) :=
  (diff series).map (Option.map (fun x => max (-x) 0))

/-- Series `ma_up = up.ewm(alpha=1/length, adjust=False).mean()` (src/main_us.py:36). -/
def ma_up (series : List ℚ) (length : ℕ) : List (Option ℚ) :=
  ewm (1 / (length : ℚ)) (rsi_up series)

/-- Series `ma_down = down.ewm(alpha=1/length, adjust=False).mean()` (src/main_us.py:37). -/
def ma_down (series : List ℚ) (length : ℕ) : List (Option ℚ) :=
  ewm (1 / (length : ℚ)) (rsi_down series)

/-- Model of `calculate_rsi` (src/main_us.py:32-40): Wilder RSI with smoothing factor
`1/length`. -/
def calculate_rsi (series : List ℚ) (length : ℕ := 100) : List (Option ℚ) :=
  (List.zipWith extDiv (ma_up series length) (ma_down series length)).map rsiOf

/-- One daily price bar (only the columns the screen reads). -/
structure Bar where
  close : ℚ
  volume : ℚ
deriving DecidableEq, Repr

/-- A qualifying screen result (src/main_us.py:177-180). -/
structure ScreenResult where
  ticker : String
  name : String
deriving DecidableEq, Repr

/-- Constant `MIN_PRICE` (src/main_us.py:19). -/
def MIN_PRICE : ℚ := 5

/-- Constant `MIN_VOLUME_SHARES` (src/main_us.py:20). -/
def MIN_VOLUME_SHARES : ℚ := 200000

def closesOf (bars : List Bar) : List ℚ := bars.map Bar.close

def defaultBar : Bar := ⟨0, 0⟩

/-- Value `df.iloc[-1]['Close']`. -/
def latest_close (bars : List Bar) : ℚ :=
  (bars.getD (bars.length - 1) defaultBar).close

/-- Value `df.iloc[-1]['Volume']`. -/
def latest_volume (bars : List Bar) : ℚ :=
  (bars.getD (bars.length - 1) defaultBar).volume

/-- Column `df['MAn'] = calculate_sma(df['Close'], length=n)` (src/main_us.py:152-155). -/
def maSeries (n : ℕ) (bars : List Bar) : List (Option ℚ) :=
  calculate_sma ((closesOf bars).map some) n

/-- Column `df['RSI'] = calculate_rsi(df['Close'], length=100)` (src/main_us.py:149). -/
def rsiSeries (bars : List Bar) : List (Option ℚ) :=
  calculate_rsi (closesOf bars) 100

/-- Column `df['RSI_SMA'] = calculate_sma(df['RSI'], length=200)` (src/main_us.py:150). -/
def rsiSmaSeries (bars : List Bar) : List (Option ℚ) :=
  calculate_sma (rsiSeries bars) 200

/-- Float `>` on possibly-missing values: any comparison with `NaN` is false. -/
def optGt (a b : Option ℚ) : Bool :=
  match a, b with
  | some x, some y => x > y
  | _, _ => false

/-- Condition `close > MA20 and close > MA60 and close > MA120 and close > MA240`
at row `i` (src/main_us.py:161-172). -/
def above_all_at (bars : List Bar) (i : ℕ) : Bool :=
  let c : Option ℚ := some ((bars.getD i defaultBar).close)
  optGt c ((maSeries 20 bars).getD i none) &&
  optGt c ((maSeries 60 bars).getD i none) &&
  optGt c ((maSeries 120 bars).getD i none) &&
  optGt c ((maSeries 240 bars).getD i none)

/-- Flag `above_all_now` (src/main_us.py:161-166). -/
def above_all_now (bars : List Bar) : Bool := above_all_at bars (bars.length - 1)

/-- Flag `above_all_prev` (src/main_us.py:167-172). -/
def above_all_prev (bars : List Bar) : Bool := above_all_at bars (bars.length - 2)

/-- Flag `cond_rsi = today['RSI'] > today['RSI_SMA']` (src/main_us.py:160). -/
def cond_rsi (bars : List Bar) : Bool :=
  optGt ((rsiSeries bars).getD (bars.length - 1) none)
        ((rsiSmaSeries bars).getD (bars.length - 1) none)

/-- Flag `cond_first_day = above_all_now and (not above_all_prev)` (src/main_us.py:174). -/
def cond_first_day (bars : List Bar) : Bool :=
  above_all_now bars && !(above_all_prev bars)

/-- The pure body of `check_stock` (src/main_us.py:136-183) once the bars have
been fetched: reject series shorter than 300 bars, reject a latest close below
`MIN_PRICE` or a latest volume below `MIN_VOLUME_SHARES`, then qualify iff
`cond_rsi and cond_first_day`. -/
def check_stock (ticker name : String) (bars : List Bar) : Option ScreenResult :=
  if bars.length < 300 then none
  else if latest_close bars < MIN_PRICE then none
  else if latest_volume bars < MIN_VOLUME_SHARES then none
  else if cond_rsi bars && cond_first_day bars then some ⟨ticker, name⟩
  else none

/-- Function `check_stock` including its `try/except` wrapper (src/main_us.py:137,
182-183): a failed fetch (any raised exception) is converted to `None`. -/
def check_stock_run (ticker name : String) (fetched : Except String (List Bar)) :
    Option ScreenResult :=
  match fetched with
  | Except.error _ => none
  | Except.ok bars => check_stock ticker name bars

/-- The scan loop of `__main__` (src/main_us.py:201-209): each ticker is
checked in turn, qualifying results are appended to the batch. -/
def scan_tickers (fetch : String → Except String (List Bar))
    (names : String → String) (tickers : List String) : List ScreenResult :=
  tickers.filterMap (fun t => check_stock_run t (names t) (fetch t))

/-- One persisted row of the rolling store: the fixed 3-column schema
`[date, ticker, name]` (src/main_us.py:58,73). -/
structure Row where
  date : String
  ticker : String
  name : String
deriving DecidableEq, Repr

/-- Rows `today_rows`: one row per batch element, tagged with today's date
(src/main_us.py:69-74). -/
def today_rows (d : String) (results : List ScreenResult) : List Row :=
  results.map (fun s => ⟨d, s.ticker, s.name⟩)

def datesOf (rows : List Row) : List String := rows.map Row.date

/-- The distinct dates present in a list of rows. -/
def distinct_dates (rows : List Row) : List String := (datesOf rows).dedup

/-- Value of `sorted(list(set(dates)), reverse=True)` (src/main_us.py:80): the distinct
dates in descending lexicographic order. -/
def unique_dates_desc (rows : List Row) : List String :=
  List.insertionSort (· ≥ ·) (distinct_dates rows)

/-- Value of `final_data` before trimming (src/main_us.py:76-77):
`clean_history` (the existing rows whose date differs from `today_date`)
followed by `today_rows`. -/
def merge_body (store : List Row) (today_date : String)
    (results : List ScreenResult) : List Row :=
  store.filter (fun row => row.date ≠ today_date) ++ today_rows today_date results

/-- The pure core of `update_rolling_data` (src/main_us.py:60-83): drop the
existing rows for `today_date`, append the new batch, and if more than 3
distinct dates remain keep only the rows of the 3 most recent dates
(src/main_us.py:80-83). -/
def merge_and_trim (store : List Row) (today_date : String)
    (results : List ScreenResult) : List Row :=
  if (unique_dates_desc (merge_body store today_date results)).length > 3 then
    (merge_body store today_date results).filter
      (fun row =>
        row.date ∈ (unique_dates_desc (merge_body store today_date results)).take 3)
  else merge_body store today_date results

/-- The end-of-run store update of `__main__` (src/main_us.py:220-223):
`update_rolling_data` is invoked only when the batch is nonempty; an empty
batch leaves the store untouched. -/
def run_update (store : List Row) (today_date : String)
    (found : List ScreenResult) : List Row :=
  if found.isEmpty then store else merge_and_trim store today_date found

/-- The three remote writes `update_rolling_data` performs to persist the
merged data (src/main_us.py:85-88): clear the worksheet, append the header
row, then append the surviving rows (skipped when there are none).  The
worksheet is modelled as its list of rows (header included). -/
def persist_steps (header : List String) (final_data : List (List String)) :
    List (List (List String) → List (List String)) :=
  [fun _ => [],
   fun ws => ws ++ [header],
   fun ws => if final_data.isEmpty then ws else ws ++ final_data]

/-- Worksheet contents after the first `k` of the three persistence writes
have executed — the state a reader observes when the call fails right after
step `k`. -/
def persist_after (k : ℕ) (header : List String)
    (final_data : List (List String)) (ws : List (List String)) :
    List (List String) :=
  ((persist_steps header final_data).take k).foldl (fun s f => f s) ws

/-! ### Basic facts about the screening evaluator -/

/-- Claim C7: for every price series containing fewer than 300 bars (the empty
series included), `check_stock` returns no result, regardless of the price,
volume, and trend values in the series. -/
theorem check_stock_short_series (ticker name : String) (bars : List Bar)
    (h : bars.length < 300) : check_stock ticker name bars = none := by
  simp [check_stock, h]

/-- Witness: the empty series is rejected. -/
theorem check_stock_short_series_witness :
    check_stock "AAPL" "Apple" [] = none :=
  check_stock_short_series "AAPL" "Apple" [] (by decide)

/-- Claim C10: when the result batch is empty, the rolling-store update is not
invoked and the store is left exactly as it was; in particular stale rows
recorded under the same date survive untouched. -/
theorem run_update_empty_batch (store : List Row) (d : String) :
    run_update store d [] = store ∧
    (run_update store d []).filter (fun row => row.date = d) =
      store.filter (fun row => row.date = d) := by
  constructor <;> simp [run_update]

/-- Claim C8: an exception during the fetch or computation of one ticker is
converted to no result for that ticker only, and the scan of the remaining
tickers proceeds with an unchanged outcome. -/
theorem scan_isolates_failure (fetch : String → Except String (List Bar))
    (names : String → String) (t e : String) (ts₁ ts₂ : List String)
    (h : fetch t = Except.error e) :
    check_stock_run t (names t) (fetch t) = none ∧
    scan_tickers fetch names (ts₁ ++ t :: ts₂) =
      scan_tickers fetch names ts₁ ++ scan_tickers fetch names ts₂ := by
  refine ⟨by simp [h, check_stock_run], ?_⟩
  simp [scan_tickers, List.filterMap_append, List.filterMap_cons, h,
    check_stock_run]

/-- Witness for C8 at a concrete failing fetch function and ticker list. -/
theorem scan_isolates_failure_witness :
    check_stock_run "MSFT" "MSFT" ((fun _ => Except.error "http timeout")
        "MSFT") = none ∧
    scan_tickers (fun _ => Except.error "http timeout") (fun s => s)
        (["AAPL"] ++ "MSFT" :: ["GOOG"]) =
      scan_tickers (fun _ => Except.error "http timeout") (fun s => s) ["AAPL"]
        ++ scan_tickers (fun _ => Except.error "http timeout") (fun s => s)
          ["GOOG"] :=
  scan_isolates_failure (fun _ => Except.error "http timeout") (fun s => s)
    "MSFT" "http timeout" ["AAPL"] ["GOOG"] rfl

/-! ### The persistence sequence is not atomic (claim C4) -/

/-- Counterexample to claim C4: when the persistence sequence of
`update_rolling_data` fails right after the `clear()` call (after step 1 of
3), a reader observes an emptied store that is neither the original contents
nor the fully rewritten contents. -/
theorem persist_not_atomic_counterexample :
    ¬ (persist_after 1 ["日期", "代號", "名稱"] [["2024-01-02", "B", "BB"]]
          [["日期", "代號", "名稱"], ["2024-01-01", "A", "AA"]] =
        [["日期", "代號", "名稱"], ["2024-01-01", "A", "AA"]] ∨
       persist_after 1 ["日期", "代號", "名稱"] [["2024-01-02", "B", "BB"]]
          [["日期", "代號", "名稱"], ["2024-01-01", "A", "AA"]] =
        persist_after 3 ["日期", "代號", "名稱"] [["2024-01-02", "B", "BB"]]
          [["日期", "代號", "名稱"], ["2024-01-01", "A", "AA"]]) := by
  decide

/-- Claim C4, amended: a failure before the `clear()` write leaves the store
untouched and a completed call leaves it fully updated, but a failure between
the `clear()` and the final append leaves a partially-written store (empty, or
header-only) observable to readers. -/
theorem persist_states (header : List String) (final_data : List (List String))
    (ws : List (List String)) :
    persist_after 0 header final_data ws = ws ∧
    persist_after 1 header final_data ws = [] ∧
    persist_after 2 header final_data ws = [header] ∧
    persist_after 3 header final_data ws =
      [header] ++ (if final_data.isEmpty then [] else final_data) := by
    refine ⟨rfl, rfl, rfl, ?_⟩
    by_cases h : final_data.isEmpty <;>
      simp [persist_after, persist_steps, h]

/-! ### The first-day breakout rule (claim C1) -/

/-- Claim C1: for every bar series that passes the length, price, and volume
filters, `check_stock` returns a qualifying result if and only if today's
close is above all four moving averages, the previous bar's close is not above
all four, and today's RSI exceeds today's RSI-SMA; in particular a series that
is above all four moving averages on both of the two most recent bars produces
no result. -/
theorem check_stock_first_day_iff (ticker name : String) (bars : List Bar)
    (h₁ : ¬ bars.length < 300) (h₂ : ¬ latest_close bars < MIN_PRICE)
    (h₃ : ¬ latest_volume bars < MIN_VOLUME_SHARES) :
    (check_stock ticker name bars = some ⟨ticker, name⟩ ↔
      above_all_now bars = true ∧ above_all_prev bars = false ∧
        cond_rsi bars = true) ∧
    (above_all_now bars = true → above_all_prev bars = true →
      check_stock ticker name bars = none) := by
  cases hr : cond_rsi bars <;> cases ha : above_all_now bars <;>
    cases hp : above_all_prev bars <;>
      simp [check_stock, h₁, h₂, h₃, cond_first_day, hr, ha, hp]

set_option maxRecDepth 8000 in
/-- Witness for C1: a concrete 300-bar series passing all three filters. -/
theorem check_stock_first_day_iff_witness :
    (check_stock "ACME" "Acme Corp" (List.replicate 300 ⟨10, 1000000⟩) =
        some ⟨"ACME", "Acme Corp"⟩ ↔
      above_all_now (List.replicate 300 ⟨10, 1000000⟩) = true ∧
        above_all_prev (List.replicate 300 ⟨10, 1000000⟩) = false ∧
        cond_rsi (List.replicate 300 ⟨10, 1000000⟩) = true) ∧
    (above_all_now (List.replicate 300 ⟨10, 1000000⟩) = true →
      above_all_prev (List.replicate 300 ⟨10, 1000000⟩) = true →
      check_stock "ACME" "Acme Corp" (List.replicate 300 ⟨10, 1000000⟩) =
        none) :=
  check_stock_first_day_iff "ACME" "Acme Corp" (List.replicate 300 ⟨10, 1000000⟩)
    (by decide) (by with_unfolding_all decide) (by with_unfolding_all decide)

/-! ### RSI at zero average loss (claim C5) -/

/-- Counterexample to claim C5: on the constant series `[1, 1, 1]` the
smoothed loss average at index 2 is exactly 0, yet the RSI at index 2 is `NaN`
(`0/0` in the code), not 100. -/
theorem rsi_zero_loss_counterexample :
    (ma_down [1, 1, 1] 100)[2]? = some (some 0) ∧
    ¬ (calculate_rsi [1, 1, 1] 100)[2]? = some (some 100) := by
  with_unfolding_all decide

/-- Claim C5, amended: at every index where the smoothed loss average is
exactly 0 and the smoothed gain average is nonzero, the RSI is exactly 100
(never `NaN`, never infinite); when both smoothed averages are 0 (a flat
price prefix) the code instead produces `NaN` via `0/0`. -/
theorem rsi_eq_100_of_zero_loss (s : List ℚ) (len i : ℕ) (g : ℚ)
    (hup : (ma_up s len)[i]? = some (some g))
    (hdown : (ma_down s len)[i]? = some (some 0))
    (hg : g ≠ 0) :
    (calculate_rsi s len)[i]? = some (some 100) := by
  unfold calculate_rsi
  rw [List.getElem?_map, List.getElem?_zipWith, hup, hdown]
  rcases lt_or_gt_of_ne hg with h | h <;>
    simp [extDiv, rsiOf, hg, h, not_lt_of_gt, Option.map]

/-- Witness for the amended C5 at the series `[1, 2]`, index 1. -/
theorem rsi_eq_100_of_zero_loss_witness :
    (calculate_rsi [1, 2] 100)[1]? = some (some 100) :=
  rsi_eq_100_of_zero_loss [1, 2] 100 1 1 (by with_unfolding_all decide)
    (by with_unfolding_all decide) (by decide)

/-! ### Purity and causality of the indicator functions (claim C9) -/

theorem diffGo_take (p : ℚ) (l : List ℚ) (k : ℕ) :
    diffGo p (l.take k) = (diffGo p l).take k := by
  induction l generalizing p k with
  | nil => simp [diffGo]
  | cons x xs ih =>
    cases k with
    | zero => simp [diffGo]
    | succ k => simp [diffGo, ih]

theorem diff_take (l : List ℚ) (k : ℕ) : diff (l.take k) = (diff l).take k := by
  cases l with
  | nil => simp [diff]
  | cons x xs =>
    cases k with
    | zero => simp [diff]
    | succ k => simp [diff, diffGo_take]

theorem ewmGo_take (a : ℚ) (st : Option ℚ) (l : List (Option ℚ)) (k : ℕ) :
    ewmGo a st (l.take k) = (ewmGo a st l).take k := by
  induction l generalizing st k with
  | nil => simp [ewmGo]
  | cons x xs ih =>
    cases k with
    | zero => cases st <;> cases x <;> simp [ewmGo]
    | succ k => cases st <;> cases x <;> simp [ewmGo, ih]

theorem calculate_sma_take (s : List (Option ℚ)) (n k : ℕ) :
    calculate_sma (s.take k) n = (calculate_sma s n).take k := by
  unfold calculate_sma
  rw [List.length_take, ← List.map_take, List.take_range]
  refine List.map_congr_left (fun i hi => ?_)
  have hik : i + 1 ≤ k :=
    Nat.succ_le_of_lt (lt_of_lt_of_le (List.mem_range.mp hi) (min_le_left _ _))
  rw [List.take_take, min_eq_left hik]

theorem calculate_rsi_take (c : List ℚ) (len k : ℕ) :
    calculate_rsi (c.take k) len = (calculate_rsi c len).take k := by
  unfold calculate_rsi ma_up ma_down rsi_up rsi_down ewm
  rw [diff_take, List.map_take, List.map_take, ewmGo_take, ewmGo_take,
    ← List.take_zipWith, List.map_take]

/-- Claim C9: the indicator functions `calculate_sma` and `calculate_rsi` are
pure (modelled as functions, they never mutate their input) and causal: applied
to the prefix of a series they agree with the full-series computation on that
prefix, so the value at any index `i` never looks ahead of index `i`. -/
theorem indicators_pure_causal (s : List (Option ℚ)) (c : List ℚ)
    (n len k i : ℕ) :
    calculate_sma (s.take k) n = (calculate_sma s n).take k ∧
    calculate_rsi (c.take k) len = (calculate_rsi c len).take k ∧
    (calculate_sma (s.take (i + 1)) n)[i]? = (calculate_sma s n)[i]? ∧
    (calculate_rsi (c.take (i + 1)) len)[i]? = (calculate_rsi c len)[i]? := by
  refine ⟨calculate_sma_take s n k, calculate_rsi_take c len k, ?_, ?_⟩
  · rw [calculate_sma_take, List.getElem?_take, if_pos (Nat.lt_succ_self i)]
  · rw [calculate_rsi_take, List.getElem?_take, if_pos (Nat.lt_succ_self i)]

/-! ### Threshold boundary behaviour (claim C6)

The bar series below has 300 bars, a latest close of exactly `5.0` and a
latest volume of exactly `200000`, and satisfies the breakout-transition and
RSI conditions, so it exercises the threshold comparisons at equality. -/

/-- Close prices `5, 4, …, 4, 5` with all volumes `200000`. -/
def boundaryBars : List Bar :=
  ⟨5, 200000⟩ :: (List.replicate 298 ⟨4, 200000⟩ ++ [⟨5, 200000⟩])

/-- Value of `rs` on the last bar of `boundaryBars`. -/
def boundaryQ : ℚ := (1 / 100) / (99 / 100) ^ 298

/-- Value of the RSI on the last bar of `boundaryBars`. -/
def boundaryR : ℚ := 100 - 100 / (1 + boundaryQ)

theorem boundary_closes :
    closesOf boundaryBars = 5 :: (List.replicate 298 4 ++ [5]) := by
  simp [closesOf, boundaryBars]

theorem diffGo_replicate (c : ℚ) (n : ℕ) (rest : List ℚ) :
    diffGo c (List.replicate n c ++ rest) =
      List.replicate n (some 0) ++ diffGo c rest := by
  induction n with
  | zero => simp
  | succ n ih => simp [List.replicate_succ, diffGo, ih, sub_self]

theorem boundary_diff :
    diff (closesOf boundaryBars) =
      none :: some (-1) :: (List.replicate 297 (some 0) ++ [some 1]) := by
  rw [boundary_closes, show (298 : ℕ) = 297 + 1 from rfl, List.replicate_succ]
  simp [diff, diffGo, diffGo_replicate]
  norm_num

theorem boundary_up :
    rsi_up (closesOf boundaryBars) =
      none :: some 0 :: (List.replicate 297 (some 0) ++ [some 1]) := by
  rw [rsi_up, boundary_diff]
  simp [List.map_replicate]

theorem boundary_down :
    rsi_down (closesOf boundaryBars) =
      none :: some 1 :: (List.replicate 297 (some 0) ++ [some 0]) := by
  rw [rsi_down, boundary_diff]
  simp [List.map_replicate]

theorem ewmGo_nil (a : ℚ) (st : Option ℚ) : ewmGo a st [] = [] := by
  cases st <;> rfl

theorem ewmGo_none_skip (a : ℚ) (l : List (Option ℚ)) :
    ewmGo a none (none :: l) = none :: ewmGo a none l := rfl

theorem ewmGo_none_seed (a v : ℚ) (l : List (Option ℚ)) :
    ewmGo a none (some v :: l) = some v :: ewmGo a (some v) l := rfl

theorem ewmGo_step (a p v : ℚ) (l : List (Option ℚ)) :
    ewmGo a (some p) (some v :: l) =
      some (a * v + (1 - a) * p) ::
        ewmGo a (some (a * v + (1 - a) * p)) l := rfl

theorem map_fun_const {α β : Type} (l : List α) (b : β) :
    l.map (fun _ => b) = List.replicate l.length b := by
  induction l with
  | nil => simp
  | cons x xs ih => simp [ih, List.replicate_succ]

/-- Exponential decay of the Wilder average over a run of zero inputs:
starting from state `p`, each of the `n` zero inputs multiplies the average by
`b = 1 - a`. -/
theorem ewmGo_zeros (a b p : ℚ) (hb : b = 1 - a) (n : ℕ)
    (rest : List (Option ℚ)) :
    ewmGo a (some p) (List.replicate n (some 0) ++ rest) =
      (List.range n).map (fun i => some (b ^ (i + 1) * p)) ++
        ewmGo a (some (b ^ n * p)) rest := by
  induction n generalizing p with
  | zero => simp
  | succ n ih =>
    rw [List.replicate_succ, List.cons_append]
    have hst : a * 0 + (1 - a) * p = b * p := by rw [hb]; ring
    simp only [ewmGo, hst]
    rw [ih (b * p), List.range_succ_eq_map, List.map_cons, List.map_map]
    refine congrArg₂ _ (by rw [pow_one]) (congrArg₂ _ ?_ ?_)
    · refine List.map_congr_left (fun i _ => ?_)
      simp [Function.comp]
      ring_nf
    · have : b ^ n * (b * p) = b ^ (n + 1) * p := by ring
      rw [this]

/-- Special case: a zero state stays exactly zero across zero inputs. -/
theorem ewmGo_zeros_zero (a : ℚ) (n : ℕ) (rest : List (Option ℚ)) :
    ewmGo a (some 0) (List.replicate n (some 0) ++ rest) =
      List.replicate n (some 0) ++ ewmGo a (some 0) rest := by
  rw [ewmGo_zeros a (1 - a) 0 rfl]
  simp [map_fun_const]

theorem boundary_ma_up :
    ma_up (closesOf boundaryBars) 100 =
      none :: some 0 :: (List.replicate 297 (some 0) ++ [some (1 / 100)]) := by
  rw [ma_up, boundary_up, ewm, Nat.cast_ofNat, ewmGo_none_skip,
    ewmGo_none_seed, ewmGo_zeros_zero, ewmGo_step, ewmGo_nil]
  norm_num

theorem boundary_ma_down :
    ma_down (closesOf boundaryBars) 100 =
      none :: some 1 ::
        ((List.range 297).map (fun i => some ((99 / 100 : ℚ) ^ (i + 1))) ++
          [some ((99 / 100 : ℚ) ^ 298)]) := by
  rw [ma_down, boundary_down, ewm, Nat.cast_ofNat, ewmGo_none_skip,
    ewmGo_none_seed, ewmGo_zeros (1 / 100) (99 / 100) 1 (by norm_num),
    ewmGo_step, ewmGo_nil]
  have h1 : (1 / 100 : ℚ) * 0 + (1 - 1 / 100) * ((99 / 100) ^ 297 * 1) =
      (99 / 100) ^ 298 := by
    rw [pow_succ]; ring
  rw [h1]
  refine congrArg₂ _ rfl (congrArg₂ _ rfl (congrArg₂ _ ?_ rfl))
  refine List.map_congr_left (fun i _ => ?_)
  rw [mul_one]

theorem zipWith_replicate_rangeMap {α β γ : Type} (f : α → β → γ) (a : α)
    (g : ℕ → β) (n : ℕ) :
    List.zipWith f (List.replicate n a) ((List.range n).map g) =
      (List.range n).map (fun i => f a (g i)) := by
  induction n generalizing g with
  | zero => simp
  | succ n ih =>
    rw [List.range_succ_eq_map, List.replicate_succ]
    simp only [List.map_cons, List.map_map, List.zipWith_cons_cons]
    rw [ih (g ∘ Nat.succ)]
    simp [Function.comp]

theorem boundary_rs :
    List.zipWith extDiv (ma_up (closesOf boundaryBars) 100)
        (ma_down (closesOf boundaryBars) 100) =
      Ext.nan :: Ext.fin 0 ::
        (List.replicate 297 (Ext.fin 0) ++ [Ext.fin boundaryQ]) := by
  rw [boundary_ma_up, boundary_ma_down]
  simp only [List.zipWith_cons_cons]
  rw [List.zipWith_append _ _ _ _ _ (by simp), zipWith_replicate_rangeMap]
  have hb : (99 / 100 : ℚ) ≠ 0 := by norm_num
  have helem : ∀ i ∈ List.range 297,
      extDiv (some 0) (some ((99 / 100 : ℚ) ^ (i + 1))) = Ext.fin 0 := by
    intro i _
    simp [extDiv, pow_ne_zero (i + 1) hb, zero_div]
  rw [List.map_congr_left helem, map_fun_const, List.length_range]
  simp [extDiv, pow_ne_zero 298 hb, boundaryQ]

theorem boundary_rsi :
    rsiSeries boundaryBars =
      none :: some 0 :: (List.replicate 297 (some 0) ++ [some boundaryR]) := by
  rw [rsiSeries, calculate_rsi, boundary_rs]
  have hq0 : (0 : ℚ) < boundaryQ := by unfold boundaryQ; positivity
  have h1q : (1 : ℚ) + boundaryQ ≠ 0 := by positivity
  have h0 : rsiOf (Ext.fin 0) = some 0 := by norm_num [rsiOf]
  have hr : rsiOf (Ext.fin boundaryQ) = some boundaryR := by
    simp only [rsiOf]
    rw [if_neg h1q]
    rfl
  have hnan : rsiOf Ext.nan = none := rfl
  simp [List.map_replicate, h0, hr, hnan]

theorem boundary_len : boundaryBars.length = 300 := by
  simp [boundaryBars]

theorem boundary_rsi_len : (rsiSeries boundaryBars).length = 300 := by
  rw [boundary_rsi]; simp

theorem optSum_replicate_zero (n : ℕ) (l : List (Option ℚ)) (s : ℚ)
    (h : optSum l = some s) :
    optSum (List.replicate n (some 0) ++ l) = some s := by
  induction n with
  | zero => simpa using h
  | succ n ih => simp [List.replicate_succ, optSum, ih, zero_add]

theorem drop100_cons (x y : Option ℚ) (l : List (Option ℚ)) :
    List.drop 100 (x :: y :: l) = List.drop 98 l := rfl

theorem boundary_rsi_getD :
    (rsiSeries boundaryBars).getD 299 none = some boundaryR := by
  have hshape : rsiSeries boundaryBars =
      (none :: some 0 :: List.replicate 297 (some 0)) ++ [some boundaryR] := by
    rw [boundary_rsi]; simp
  rw [List.getD_eq_getElem?_getD, hshape,
    List.getElem?_append_right (by simp)]
  simp

theorem boundary_rsi_sma_getD :
    (rsiSmaSeries boundaryBars).getD 299 none = some (boundaryR / 200) := by
  rw [rsiSmaSeries, calculate_sma, boundary_rsi_len,
    List.getD_eq_getElem?_getD, List.getElem?_map,
    List.getElem?_range (by norm_num)]
  have htake : (rsiSeries boundaryBars).take 300 = rsiSeries boundaryBars := by
    conv_lhs => rw [← boundary_rsi_len]
    exact List.take_length _
  have hwin : ((rsiSeries boundaryBars).take 300).drop 100 =
      List.replicate 199 (some 0) ++ [some boundaryR] := by
    rw [htake, boundary_rsi, drop100_cons, List.drop_append_eq_append_drop,
      List.drop_replicate]
    norm_num
  have hsum : optSum (((rsiSeries boundaryBars).take 300).drop 100) =
      some boundaryR := by
    rw [hwin]
    exact optSum_replicate_zero 199 _ _ (by simp [optSum])
  simp only [Option.map_some', Option.getD_some]
  rw [if_neg (by norm_num : ¬ (299 + 1 < 200)), hsum]
  simp only [Option.map_some', Nat.cast_ofNat]

theorem boundary_r_pos : (0 : ℚ) < boundaryR := by
  have hq0 : (0 : ℚ) < boundaryQ := by unfold boundaryQ; positivity
  have h1 : (100 : ℚ) / (1 + boundaryQ) < 100 :=
    div_lt_self (by norm_num) (by linarith)
  unfold boundaryR
  linarith

theorem boundary_cond_rsi : cond_rsi boundaryBars = true := by
  unfold cond_rsi
  rw [boundary_len, show (300 : ℕ) - 1 = 299 from rfl, boundary_rsi_getD,
    boundary_rsi_sma_getD]
  simp only [optGt, gt_iff_lt, decide_eq_true_eq]
  exact div_lt_self boundary_r_pos (by norm_num : (1 : ℚ) < 200)

set_option maxRecDepth 12000 in
theorem boundary_above_now : above_all_now boundaryBars = true := by
  with_unfolding_all decide

set_option maxRecDepth 12000 in
theorem boundary_above_prev : above_all_prev boundaryBars = false := by
  with_unfolding_all decide

set_option maxRecDepth 12000 in
theorem boundary_filters :
    ¬ boundaryBars.length < 300 ∧
    ¬ latest_close boundaryBars < MIN_PRICE ∧
    ¬ latest_volume boundaryBars < MIN_VOLUME_SHARES := by
  with_unfolding_all decide

set_option maxRecDepth 12000 in
/-- Counterexample to claim C6: on `boundaryBars` the latest close equals the
minimum price threshold exactly and the latest volume equals the minimum
volume threshold exactly — neither strictly exceeds its threshold — yet
`check_stock` returns a qualifying result rather than rejecting. -/
theorem threshold_equality_passes :
    latest_close boundaryBars = MIN_PRICE ∧
    ¬ latest_close boundaryBars > MIN_PRICE ∧
    latest_volume boundaryBars = MIN_VOLUME_SHARES ∧
    ¬ latest_volume boundaryBars > MIN_VOLUME_SHARES ∧
    check_stock "BDRY" "Boundary Inc" boundaryBars =
      some ⟨"BDRY", "Boundary Inc"⟩ := by
  refine ⟨by with_unfolding_all rfl, by with_unfolding_all decide,
    by with_unfolding_all rfl, by with_unfolding_all decide, ?_⟩
  obtain ⟨h₁, h₂, h₃⟩ := boundary_filters
  have hcond : (cond_rsi boundaryBars && cond_first_day boundaryBars) = true := by
    rw [boundary_cond_rsi, cond_first_day, boundary_above_now,
      boundary_above_prev]
    rfl
  rw [check_stock, if_neg h₁, if_neg h₂, if_neg h₃, if_pos hcond]

/-- Claim C6, amended: `check_stock` returns no result whenever the latest
close is strictly below `MIN_PRICE` or the latest volume is strictly below
`MIN_VOLUME_SHARES`; a close or volume exactly equal to its threshold is not
rejected by these filters. -/
theorem check_stock_rejects_below_thresholds (ticker name : String)
    (bars : List Bar)
    (h : latest_close bars < MIN_PRICE ∨
      latest_volume bars < MIN_VOLUME_SHARES) :
    check_stock ticker name bars = none := by
  unfold check_stock
  rcases h with h | h <;> split_ifs <;> rfl

/-- Witness: a one-bar penny stock is rejected by the price filter. -/
theorem check_stock_rejects_below_thresholds_witness :
    check_stock "PENNY" "Penny Stock" [⟨1, 1⟩] = none :=
  check_stock_rejects_below_thresholds "PENNY" "Penny Stock" [⟨1, 1⟩]
    (Or.inl (by with_unfolding_all decide))

/-! ### Retention and idempotence of the rolling store (claims C2 and C3) -/

theorem unique_dates_desc_sorted (rows : List Row) :
    (unique_dates_desc rows).Sorted (· ≥ ·) :=
  List.sorted_insertionSort _ _

theorem unique_dates_desc_nodup (rows : List Row) :
    (unique_dates_desc rows).Nodup :=
  (List.perm_insertionSort _ _).nodup_iff.mpr (List.nodup_dedup _)

theorem mem_unique_dates_desc {rows : List Row} {x : String} :
    x ∈ unique_dates_desc rows ↔ x ∈ datesOf rows :=
  ((List.perm_insertionSort _ _).mem_iff).trans (List.mem_dedup)

/-- A date of the merged data that did not make it into the three kept dates
is strictly older than every kept date. -/
theorem lt_of_not_kept {rows : List Row} {x y : String}
    (hx : x ∈ unique_dates_desc rows)
    (hxk : x ∉ (unique_dates_desc rows).take 3)
    (hy : y ∈ (unique_dates_desc rows).take 3) : x < y := by
  have hxdrop : x ∈ (unique_dates_desc rows).drop 3 := by
    rcases List.mem_append.mp
        (by rw [List.take_append_drop]; exact hx :
          x ∈ (unique_dates_desc rows).take 3 ++
            (unique_dates_desc rows).drop 3) with h | h
    · exact absurd h hxk
    · exact h
  have hge : y ≥ x :=
    (unique_dates_desc_sorted rows).rel_of_mem_take_of_mem_drop hy hxdrop
  refine lt_of_le_of_ne hge (fun he => ?_)
  have hnd := unique_dates_desc_nodup rows
  rw [← List.take_append_drop 3 (unique_dates_desc rows)] at hnd
  exact (List.nodup_append.mp hnd).2.2 hy (he ▸ hxdrop)

theorem today_rows_date {d : String} {res : List ScreenResult} {t : Row}
    (h : t ∈ today_rows d res) : t.date = d := by
  rcases List.mem_map.mp h with ⟨s, _, rfl⟩
  rfl

/-- Every date of the trimmed store lies in the kept dates. -/
theorem date_mem_keep_of_mem_filter {rows : List Row} {keep : List String}
    {s : Row} (h : s ∈ rows.filter (fun row => row.date ∈ keep)) :
    s.date ∈ keep := by
  have := List.of_mem_filter h
  simpa using this

/-- Claim C2: after any single `merge_and_trim` call the store holds rows for
at most 3 distinct dates, and every date of the pre-trim merged data that was
evicted is strictly older than every surviving row's date. -/
theorem merge_and_trim_retention (store : List Row) (d : String)
    (res : List ScreenResult) :
    (distinct_dates (merge_and_trim store d res)).length ≤ 3 ∧
    (∀ r s : Row, r ∈ merge_body store d res →
      r.date ∉ datesOf (merge_and_trim store d res) →
      s ∈ merge_and_trim store d res → r.date < s.date) := by
  by_cases htrim : (unique_dates_desc (merge_body store d res)).length > 3
  · have hout : merge_and_trim store d res =
        (merge_body store d res).filter
          (fun row =>
            row.date ∈ (unique_dates_desc (merge_body store d res)).take 3) := by
      rw [merge_and_trim, if_pos htrim]
    constructor
    · have hsub : distinct_dates (merge_and_trim store d res) ⊆
          (unique_dates_desc (merge_body store d res)).take 3 := by
        intro x hx
        rcases List.mem_map.mp (List.mem_dedup.mp hx) with ⟨row, hrow, rfl⟩
        rw [hout] at hrow
        exact date_mem_keep_of_mem_filter hrow
      calc (distinct_dates (merge_and_trim store d res)).length
          ≤ ((unique_dates_desc (merge_body store d res)).take 3).length :=
            ((List.nodup_dedup _).subperm hsub).length_le
        _ ≤ 3 := List.length_take_le _ _
    · intro r s hr hrd hs
      rw [hout] at hs
      have hskeep := date_mem_keep_of_mem_filter hs
      have hrmem : r.date ∈ unique_dates_desc (merge_body store d res) :=
        mem_unique_dates_desc.mpr (List.mem_map_of_mem Row.date hr)
      have hrnk : r.date ∉
          (unique_dates_desc (merge_body store d res)).take 3 := by
        intro hk
        exact hrd (by
          rw [hout]
          exact List.mem_map_of_mem Row.date
            (List.mem_filter.mpr ⟨hr, by simpa using hk⟩))
      exact lt_of_not_kept hrmem hrnk hskeep
  · have hout : merge_and_trim store d res = merge_body store d res := by
      rw [merge_and_trim, if_neg htrim]
    constructor
    · have hlen : (distinct_dates (merge_and_trim store d res)).length =
          (unique_dates_desc (merge_body store d res)).length := by
        rw [hout]
        exact ((List.perm_insertionSort _ _).length_eq).symm
      omega
    · intro r s hr hrd _
      exact absurd (by rw [hout]; exact List.mem_map_of_mem Row.date hr) hrd

set_option maxRecDepth 2000 in
/-- Witness for C2: merging a fourth date into a store holding three dates
evicts the oldest date, which is strictly older than the surviving result. -/
theorem merge_and_trim_retention_witness :
    (distinct_dates (merge_and_trim
        [⟨"2024-01-01", "A", "AA"⟩, ⟨"2024-01-02", "B", "BB"⟩,
         ⟨"2024-01-03", "C", "CC"⟩] "2024-01-04" [⟨"D", "DD"⟩])).length ≤ 3 ∧
    ("2024-01-01" : String) < "2024-01-04" :=
  ⟨(merge_and_trim_retention _ _ _).1,
   (merge_and_trim_retention
      [⟨"2024-01-01", "A", "AA"⟩, ⟨"2024-01-02", "B", "BB"⟩,
       ⟨"2024-01-03", "C", "CC"⟩] "2024-01-04" [⟨"D", "DD"⟩]).2
     ⟨"2024-01-01", "A", "AA"⟩ ⟨"2024-01-04", "D", "DD"⟩
     (by with_unfolding_all decide) (by with_unfolding_all decide)
     (by with_unfolding_all decide)⟩

theorem filter_today_rows_ne (d : String) (res : List ScreenResult) :
    (today_rows d res).filter (fun row => row.date ≠ d) = [] := by
  rw [List.filter_eq_nil_iff]
  intro a ha
  simp [today_rows_date ha]

theorem filter_filter_self (p : Row → Bool) (l : List Row) :
    (l.filter p).filter p = l.filter p := by
  rw [List.filter_filter]
  exact List.filter_congr (fun a _ => by cases p a <;> simp)

theorem merge_body_filter (store : List Row) (d : String)
    (res : List ScreenResult) (p : Row → Bool) :
    (merge_body store d res).filter p =
      (store.filter (fun row => row.date ≠ d)).filter p ++
        (today_rows d res).filter p := by
  rw [merge_body, List.filter_append]

theorem merge_body_filter_ne (store : List Row) (d : String)
    (res : List ScreenResult) :
    (merge_body store d res).filter (fun row => row.date ≠ d) =
      store.filter (fun row => row.date ≠ d) := by
  rw [merge_body, List.filter_append, filter_today_rows_ne, List.append_nil,
    filter_filter_self]

set_option maxHeartbeats 1600000 in
/-- Claim C3: merging for a date already present first removes the existing
rows for that date, so a second `merge_and_trim` with the same date and the
same batch reproduces the same store exactly (no duplicate accumulation). -/
theorem merge_and_trim_idempotent (store : List Row) (d : String)
    (res : List ScreenResult) :
    merge_and_trim (merge_and_trim store d res) d res =
      merge_and_trim store d res := by
  by_cases htrim : (unique_dates_desc (merge_body store d res)).length > 3
  · -- the first call trimmed: the kept dates are the three most recent
    have hF : merge_and_trim store d res =
        (merge_body store d res).filter
          (fun row =>
            row.date ∈ (unique_dates_desc (merge_body store d res)).take 3) := by
      rw [merge_and_trim, if_pos htrim]
    have hkeep_nodup :
        ((unique_dates_desc (merge_body store d res)).take 3).Nodup :=
      (List.take_sublist _ _).nodup (unique_dates_desc_nodup _)
    have hkeep_len :
        ((unique_dates_desc (merge_body store d res)).take 3).length = 3 := by
      rw [List.length_take]
      exact min_eq_left (le_of_lt htrim)
    have hFdate : ∀ row ∈ merge_and_trim store d res,
        row.date ∈ (unique_dates_desc (merge_body store d res)).take 3 := by
      intro row h
      rw [hF] at h
      exact date_mem_keep_of_mem_filter h
    have hsub2 : unique_dates_desc (merge_and_trim store d res) ⊆
        (unique_dates_desc (merge_body store d res)).take 3 := by
      intro x hx
      rcases List.mem_map.mp (mem_unique_dates_desc.mp hx) with ⟨row, hrow, rfl⟩
      exact hFdate row hrow
    have hlen2 : ¬ (unique_dates_desc (merge_and_trim store d res)).length > 3 := by
      have h := ((unique_dates_desc_nodup _).subperm hsub2).length_le
      omega
    by_cases hd : d ∈ (unique_dates_desc (merge_body store d res)).take 3
    · -- today's date is among the kept dates: the second body equals the store
      have hT : (today_rows d res).filter
          (fun row =>
            row.date ∈ (unique_dates_desc (merge_body store d res)).take 3) =
          today_rows d res :=
        List.filter_eq_self.mpr
          (fun t ht => by simp [today_rows_date ht, hd])
      have hFsplit : merge_and_trim store d res =
          ((store.filter (fun row => row.date ≠ d)).filter
            (fun row =>
              row.date ∈ (unique_dates_desc (merge_body store d res)).take 3)) ++
            today_rows d res := by
        rw [hF, merge_body_filter, hT]
      have hb2 : merge_body (merge_and_trim store d res) d res =
          merge_and_trim store d res := by
        rw [merge_body]
        conv_lhs => rw [hFsplit]
        rw [List.filter_append, filter_today_rows_ne, List.append_nil,
          List.filter_comm, filter_filter_self, ← hFsplit]
      rw [merge_and_trim, hb2, if_neg hlen2]
    · -- today's date was evicted by the first call
      have hT0 : (today_rows d res).filter
          (fun row =>
            row.date ∈ (unique_dates_desc (merge_body store d res)).take 3) =
          [] :=
        List.filter_eq_nil_iff.mpr
          (fun t ht => by simp [today_rows_date ht, hd])
      have hFX : merge_and_trim store d res =
          (store.filter (fun row => row.date ≠ d)).filter
            (fun row =>
              row.date ∈ (unique_dates_desc (merge_body store d res)).take 3) := by
        rw [hF, merge_body_filter, hT0, List.append_nil]
      have hFne : (merge_and_trim store d res).filter
          (fun row => row.date ≠ d) = merge_and_trim store d res := by
        conv_lhs => rw [hFX]
        rw [List.filter_comm, filter_filter_self, ← hFX]
      have hb2 : merge_body (merge_and_trim store d res) d res =
          merge_and_trim store d res ++ today_rows d res := by
        rw [merge_body, hFne]
      by_cases hres : res = []
      · -- empty batch: the second body is the first result again
        have hb2n : merge_body (merge_and_trim store d res) d res =
            merge_and_trim store d res := by
          rw [hb2, hres, today_rows, List.map_nil, List.append_nil]
        rw [merge_and_trim, hb2n, if_neg hlen2]
      · -- nonempty batch: the second call trims today's rows away again
        have hTne : today_rows d res ≠ [] := by
          simp [today_rows, hres]
        obtain ⟨t0, ht0⟩ := List.exists_mem_of_ne_nil _ hTne
        have hdmem1 : d ∈ datesOf (merge_body store d res) := by
          have h1 : t0 ∈ merge_body store d res := by
            rw [merge_body]
            exact List.mem_append_right _ ht0
          have h2 := List.mem_map_of_mem Row.date h1
          rwa [today_rows_date ht0] at h2
        have hdlt : ∀ k ∈ (unique_dates_desc (merge_body store d res)).take 3,
            d < k :=
          fun k hk => lt_of_not_kept (mem_unique_dates_desc.mpr hdmem1) hd hk
        have hFkeepdates : ∀ k ∈ (unique_dates_desc (merge_body store d res)).take 3,
            k ∈ datesOf (merge_and_trim store d res) := by
          intro k hk
          have hk2 : k ∈ datesOf (merge_body store d res) :=
            mem_unique_dates_desc.mp (List.take_subset _ _ hk)
          rcases List.mem_map.mp hk2 with ⟨row, hrow, rfl⟩
          rw [hF]
          exact List.mem_map_of_mem Row.date
            (List.mem_filter.mpr ⟨hrow, by simpa using hk⟩)
        have hu2mem : ∀ x,
            x ∈ unique_dates_desc (merge_body (merge_and_trim store d res) d res) ↔
              x ∈ d :: (unique_dates_desc (merge_body store d res)).take 3 := by
          intro x
          rw [mem_unique_dates_desc, hb2]
          constructor
          · intro hx
            rcases List.mem_map.mp hx with ⟨row, hrow, rfl⟩
            rcases List.mem_append.mp hrow with h | h
            · exact List.mem_cons_of_mem _ (hFdate _ h)
            · rw [today_rows_date h]
              exact List.mem_cons_self _ _
          · intro hx
            rcases List.mem_cons.mp hx with he | hx
            · rw [he]
              have h1 : t0.date ∈
                  datesOf (merge_and_trim store d res ++ today_rows d res) :=
                List.mem_map_of_mem Row.date (List.mem_append_right _ ht0)
              rwa [today_rows_date ht0] at h1
            · rcases List.mem_map.mp (hFkeepdates x hx) with ⟨row, hrow, rfl⟩
              exact List.mem_map_of_mem Row.date (List.mem_append_left _ hrow)
        have hperm : List.Perm
            (unique_dates_desc (merge_body (merge_and_trim store d res) d res))
            (d :: (unique_dates_desc (merge_body store d res)).take 3) :=
          (List.perm_ext_iff_of_nodup (unique_dates_desc_nodup _)
            (List.nodup_cons.mpr ⟨hd, hkeep_nodup⟩)).mpr hu2mem
        have hlen4 :
            (unique_dates_desc (merge_body (merge_and_trim store d res) d res)).length =
              4 := by
          rw [hperm.length_eq, List.length_cons, hkeep_len]
        have htrim2 :
            (unique_dates_desc (merge_body (merge_and_trim store d res) d res)).length >
              3 := by omega
        have hd_not_keep2 : d ∉
            (unique_dates_desc (merge_body (merge_and_trim store d res) d res)).take 3 := by
          intro hdk
          have hyne :
              (unique_dates_desc (merge_body (merge_and_trim store d res) d res)).drop 3 ≠
                [] := by
            intro h
            have := List.length_drop 3
              (unique_dates_desc (merge_body (merge_and_trim store d res) d res))
            rw [h, hlen4] at this
            simp at this
          obtain ⟨y, hy⟩ := List.exists_mem_of_ne_nil _ hyne
          have hyu := List.drop_subset _ _ hy
          have hyne_d : y ≠ d := by
            intro he
            rw [he] at hy
            have hnd := unique_dates_desc_nodup
              (merge_body (merge_and_trim store d res) d res)
            rw [← List.take_append_drop 3
              (unique_dates_desc (merge_body (merge_and_trim store d res) d res))] at hnd
            exact (List.nodup_append.mp hnd).2.2 hdk hy
          have hyk : y ∈ (unique_dates_desc (merge_body store d res)).take 3 := by
            rcases List.mem_cons.mp ((hu2mem y).mp hyu) with he | h
            · exact absurd he hyne_d
            · exact h
          have hge : d ≥ y :=
            (unique_dates_desc_sorted _).rel_of_mem_take_of_mem_drop hdk hy
          exact absurd (hdlt y hyk) (not_lt.mpr hge)
        have hk2sub :
            (unique_dates_desc (merge_body (merge_and_trim store d res) d res)).take 3 ⊆
              (unique_dates_desc (merge_body store d res)).take 3 := by
          intro x hx
          rcases List.mem_cons.mp ((hu2mem x).mp (List.take_subset _ _ hx)) with he | h
          · rw [he] at hx
            exact absurd hx hd_not_keep2
          · exact h
        have hk2len :
            ((unique_dates_desc (merge_body (merge_and_trim store d res) d res)).take 3).length =
              3 := by
          rw [List.length_take, hlen4]
          rfl
        have hk2nodup :
            ((unique_dates_desc (merge_body (merge_and_trim store d res) d res)).take 3).Nodup :=
          (List.take_sublist _ _).nodup (unique_dates_desc_nodup _)
        have hk2perm : List.Perm
            ((unique_dates_desc (merge_body (merge_and_trim store d res) d res)).take 3)
            ((unique_dates_desc (merge_body store d res)).take 3) :=
          (hk2nodup.subperm hk2sub).perm_of_length_le (by omega)
        have hfinal : (merge_body (merge_and_trim store d res) d res).filter
            (fun row => row.date ∈
              (unique_dates_desc (merge_body (merge_and_trim store d res) d res)).take 3) =
            merge_and_trim store d res := by
          rw [merge_body_filter, hFne]
          have h1 : (merge_and_trim store d res).filter
              (fun row => row.date ∈
                (unique_dates_desc (merge_body (merge_and_trim store d res) d res)).take 3) =
              merge_and_trim store d res :=
            List.filter_eq_self.mpr (fun row hrow =>
              decide_eq_true (hk2perm.mem_iff.mpr (hFdate row hrow)))
          have h2 : (today_rows d res).filter
              (fun row => row.date ∈
                (unique_dates_desc (merge_body (merge_and_trim store d res) d res)).take 3) =
              [] :=
            List.filter_eq_nil_iff.mpr (fun t ht => by
              simp [today_rows_date ht, hd_not_keep2])
          rw [h1, h2, List.append_nil]
        rw [merge_and_trim, if_pos htrim2]
        exact hfinal
  · -- the first call did not trim
    have hF : merge_and_trim store d res = merge_body store d res := by
      rw [merge_and_trim, if_neg htrim]
    have hb2 : merge_body (merge_and_trim store d res) d res =
        merge_body store d res := by
      rw [merge_body, hF, merge_body_filter_ne]
      rfl
    rw [merge_and_trim, hb2, if_neg htrim, hF]

end Scanner
